import Mathlib

/-!
# SportNex — verification of the participant-lifecycle and storage core

A shallow embedding of the SportNex mobile app's core logic:

* the serial write queue (`SqliteWriteQueue`),
* the SQLite data-access layer for events and users
  (`EventRepository`, `UserRepository`, `SqliteHelperFunctions`),
* the participant-lifecycle handlers of the dashboard screen
  (`handleRequestToJoin`, `handleWithdrawFromEvent`,
  `handleUpdateParticipantStatus`, `handleEventSelect`).

JavaScript numbers used as timestamps and counts are modelled as `Int`;
strings as `String`.  The external JSON encoder is modelled by its
contract (`JSON.parse (JSON.stringify x) = x`, and `JSON.parse` rejects
malformed text); `decodeURIComponent` is modelled on ASCII percent
escapes (escapes `%HH` with `HH < 0x80` decode, a `%` not followed by
two hex digits throws, modelled as `none`).
-/

namespace SportNex

/-- Participant status literals `'pending' | 'confirmed' | 'rejected' | 'expired'`
(`EventSchema.tsx`).  `decodeURIComponent` is the identity on all four
literals (they contain no percent escape), so `decodeData` never alters
a status value and the status can be carried as an enumeration. -/
inductive PStatus where
  | pending
  | confirmed
  | rejected
  | expired
deriving DecidableEq

/-- One entry of an event's `participants` array (`EventSchema.tsx`). -/
structure Participant where
  id : String
  name : String
  status : PStatus
deriving DecidableEq

/-- The denormalized `hostedBy` snapshot `{id, name}` (`EventSchema.tsx`). -/
structure HostRef where
  id : String
  name : String
deriving DecidableEq

/-- The `EventSchema` interface.  `id` is optional in the interface; the
`createdDate` field is defaulted by `createEvent` when absent, so it is
carried as an `Option` on the input side. -/
structure EventSchema where
  id : Option String
  eventTitle : String
  eventDescription : String
  eventLocation : String
  maxPlayerLimit : Int
  eventDateTime : Int
  createdDate : Option Int
  hostedBy : HostRef
  participants : List Participant
deriving DecidableEq

/-! ## `decodeURIComponent` and `decodeData` (`SqliteHelperFunctions.tsx`) -/

/-- Value of a hexadecimal digit character, `none` otherwise. -/
def hexDigitVal (c : Char) : Option Nat :=
  if '0' ≤ c ∧ c ≤ '9' then some (c.toNat - '0'.toNat)
  else if 'a' ≤ c ∧ c ≤ 'f' then some (c.toNat - 'a'.toNat + 10)
  else if 'A' ≤ c ∧ c ≤ 'F' then some (c.toNat - 'A'.toNat + 10)
  else none

/-- Character-list core of `decodeURIComponent`: decodes `%HH` escapes in
the ASCII range; a `%` not followed by two hex digits, or an escape
outside the single-byte ASCII range (multi-byte UTF-8 sequences are not
modelled), is a `URIError`, returned as `none`. -/
def percentDecodeChars : List Char → Option (List Char)
  | [] => some []
  | '%' :: c1 :: c2 :: rest =>
    match hexDigitVal c1, hexDigitVal c2 with
    | some h1, some h2 =>
      if 16 * h1 + h2 < 128 then
        (percentDecodeChars rest).map (fun tail => Char.ofNat (16 * h1 + h2) :: tail)
      else none
    | _, _ => none
  | '%' :: _ => none
  | c :: rest => (percentDecodeChars rest).map (fun tail => c :: tail)

/-- `decodeURIComponent`: `none` models a thrown `URIError`. -/
def decodeURIComponentJS (s : String) : Option String :=
  (percentDecodeChars s.data).map List.asString

/-- `decodeData` on a single string value: `try { decodeURIComponent(val) }
catch { val }`. -/
def decodeStr (s : String) : String :=
  (decodeURIComponentJS s).getD s

/-- `decodeData` restricted to a participant record: every string value is
percent-decoded; the status literals are fixed points of decoding. -/
def decodeParticipant (p : Participant) : Participant :=
  { id := decodeStr p.id, name := decodeStr p.name, status := p.status }

/-- `decodeData` restricted to the `hostedBy` record. -/
def decodeHostRef (h : HostRef) : HostRef :=
  { id := decodeStr h.id, name := decodeStr h.name }

/-- `decodeData` on an event object: recursively percent-decodes every
string value, leaves numbers untouched, and skips absent keys. -/
def decodeEvent (e : EventSchema) : EventSchema :=
  { id := e.id.map decodeStr
    eventTitle := decodeStr e.eventTitle
    eventDescription := decodeStr e.eventDescription
    eventLocation := decodeStr e.eventLocation
    maxPlayerLimit := e.maxPlayerLimit
    eventDateTime := e.eventDateTime
    createdDate := e.createdDate
    hostedBy := decodeHostRef e.hostedBy
    participants := e.participants.map decodeParticipant }

/-! ## Storage rows and the serialize/deserialize boundary
(`SqliteHelperFunctions.tsx`, `EventRepository.tsx`) -/

/-- Content of the `participants` text column.  `serializeForDB` writes
`JSON.stringify` of the participant array (`ser`); any other stored text
either fails `JSON.parse` (`malformed`, non-empty hence truthy), is the
empty string (falsy, left unparsed by `deserializeFromDB`), or is SQL
`NULL`. -/
inductive PartCol where
  | ser (l : List Participant)
  | malformed (s : String)
  | emptyText
  | nullCol
deriving DecidableEq

/-- One row of the `events` table (`EventTable.tsx` layout): scalar
columns plus the two JSON text columns.  The `hostedBy` column is carried
as the host record it serializes (`none` = `NULL`). -/
structure EventRow where
  id : String
  eventTitle : String
  eventDescription : String
  eventLocation : String
  maxPlayerLimit : Int
  eventDateTime : Int
  createdDate : Int
  hostedBy : Option HostRef
  participantsCol : PartCol
deriving DecidableEq

/-- JavaScript value produced for the `participants` field by
`deserializeFromDB`: a parsed array, `null` (stored `NULL`, or
`JSON.parse` threw and the catch branch wrote `null`), or the falsy
empty string left untouched by the `if (parsed[field])` guard. -/
inductive DeserValue where
  | arr (l : List Participant)
  | nullv
  | emptyStr
deriving DecidableEq

/-- `deserializeFromDB` on the `participants` column: truthy text is
`JSON.parse`d, with a parse failure caught and replaced by `null`;
falsy text (`NULL` or `""`) is left as it is. -/
def deserializeParticipantsCol : PartCol → DeserValue
  | .ser l => .arr l
  | .malformed _ => .nullv
  | .emptyText => .emptyStr
  | .nullCol => .nullv

/-- The repository's `deserialized.participants || []`: an array (always
truthy in JavaScript, even when empty) is kept, `null` and `""` fall
back to `[]`. -/
def orEmptyList : DeserValue → List Participant
  | .arr l => l
  | .nullv => []
  | .emptyStr => []

/-- An event as returned by the read operations `getAllEvents` /
`getEventById`: `id` and `createdDate` are filled from the row, and the
`hostedBy` field is whatever the JSON column deserialized to. -/
structure EventRead where
  id : String
  eventTitle : String
  eventDescription : String
  eventLocation : String
  maxPlayerLimit : Int
  eventDateTime : Int
  createdDate : Int
  hostedBy : Option HostRef
  participants : List Participant
deriving DecidableEq

/-- Row-to-object mapping shared by `getAllEvents` and `getEventById`:
field-by-field copy with `participants: deserialized.participants || []`. -/
def rowToEvent (r : EventRow) : EventRead :=
  { id := r.id
    eventTitle := r.eventTitle
    eventDescription := r.eventDescription
    eventLocation := r.eventLocation
    maxPlayerLimit := r.maxPlayerLimit
    eventDateTime := r.eventDateTime
    createdDate := r.createdDate
    hostedBy := r.hostedBy
    participants := orEmptyList (deserializeParticipantsCol r.participantsCol) }

/-- The `events` table, rows in insertion order. -/
abbrev EventsDB := List EventRow

/-- `SELECT * FROM events WHERE id = ?`: first row with matching primary
key. -/
def findRow (db : EventsDB) (eventId : String) : Option EventRow :=
  List.find? (fun r => r.id = eventId) db

/-- `getEventById` over the table state (success path): point lookup,
`null` when absent. -/
def getEventById (db : EventsDB) (eventId : String) : Option EventRead :=
  (findRow db eventId).map rowToEvent

/-- The row `createEvent` inserts: the input is `decodeData`d, `id` and
`createdDate` are defaulted when absent, and `serializeForDB` turns the
`hostedBy`/`participants` structures into their JSON column texts. -/
def createdRow (input : EventSchema) (genId : String) (now : Int) : EventRow :=
  let d := decodeEvent input
  { id := d.id.getD genId
    eventTitle := d.eventTitle
    eventDescription := d.eventDescription
    eventLocation := d.eventLocation
    maxPlayerLimit := d.maxPlayerLimit
    eventDateTime := d.eventDateTime
    createdDate := d.createdDate.getD now
    hostedBy := some d.hostedBy
    participantsCol := .ser d.participants }

/-- `createEvent` task body over the table state: insert `createdRow`.
A duplicate primary key makes `executeSql` throw and the catch branch
resolve `undefined`; success resolves the stored object. -/
def createEvent (db : EventsDB) (input : EventSchema) (genId : String) (now : Int) :
    EventsDB × Option EventRead :=
  let row := createdRow input genId now
  if (findRow db row.id).isSome then (db, none)
  else (db ++ [row], some (rowToEvent row))

/-- `UPDATE events SET participants = ? WHERE id = ?` as issued by
`updateEvent` when called with only a `participants` field: the array is
serialized and every row with the key is overwritten. -/
def dbUpdateParticipants (db : EventsDB) (eventId : String)
    (ps : List Participant) : EventsDB :=
  db.map fun r => if r.id = eventId then { r with participantsCol := .ser ps } else r

/-! ## Error propagation boundary (`EventRepository.tsx`, `UserRepository`)

Each operation is modelled as a function of the storage engine's outcome
for its statement: `ok` carries the rows / affected-row count, `failure`
models a thrown engine-level error.  The returned `Except` is the
promise: `.error` a rejection/throw reaching the caller, `.ok` a
resolution. -/

/-- Outcome of a `db.executeSql` call. -/
inductive EngineResult (α : Type) where
  | ok (a : α)
  | failure (msg : String)

/-- A row of the `users` table. -/
structure UserRow where
  id : String
  name : String
  username : String
  password : String
  created_at : String
deriving DecidableEq

/-- `getAllEvents`: maps rows on success; the catch branch rethrows
`new Error('Failed to get events')`. -/
def getAllEventsOn : EngineResult (List EventRow) → Except String (List EventRead)
  | .ok rows => .ok (rows.map rowToEvent)
  | .failure _ => .error "Failed to get events"

/-- `getEventById`: first returned row or `null`; the catch branch
rethrows `new Error('Failed to get event')`. -/
def getEventByIdOn : EngineResult (List EventRow) → Except String (Option EventRead)
  | .ok rows => .ok (rows.head?.map rowToEvent)
  | .failure _ => .error "Failed to get event"

/-- `loginUser`: first row matching username+password or `null`; the
catch branch rethrows `new Error('Failed to login')`. -/
def loginUserOn : EngineResult (List UserRow) → Except String (Option UserRow)
  | .ok rows => .ok rows.head?
  | .failure _ => .error "Failed to login"

/-- `createEvent` promise outcome as a function of the insert's engine
result (`rowsAffected` on success): the catch branch logs and
`resolve(undefined)` — it never rejects. -/
def createEventOn (stored : EventRead) :
    EngineResult Int → Except String (Option EventRead)
  | .ok n => .ok (if 0 < n then some stored else none)
  | .failure _ => .ok none

/-- `updateEvent` promise outcome: with no recognized field it resolves
`false` before touching the engine; otherwise `rowsAffected > 0` on
success, and the catch branch logs and resolves `false`. -/
def updateEventOn (hasFields : Bool) (r : EngineResult Int) : Except String Bool :=
  if hasFields then
    match r with
    | .ok n => .ok (decide (0 < n))
    | .failure _ => .ok false
  else .ok false

/-- `deleteEvent` promise outcome: `rowsAffected > 0`, catch branch
resolves `false`. -/
def deleteEventOn : EngineResult Int → Except String Bool
  | .ok n => .ok (decide (0 < n))
  | .failure _ => .ok false

/-- `clearEventsTable` promise outcome: resolves `undefined` on both the
success and the catch path. -/
def clearEventsTableOn : EngineResult Unit → Except String Unit
  | .ok _ => .ok ()
  | .failure _ => .ok ()

/-! ## Participant lifecycle handlers (`DashboardScreen.tsx`) -/

/-- Millisecond normalization inside `hasEventPassed`: a numeric
timestamp above `1e12` is already milliseconds, otherwise it is seconds
and is multiplied by `1000`. -/
def eventTimeInMs (timestamp : Int) : Int :=
  if 1000000000000 < timestamp then timestamp else timestamp * 1000

/-- `hasEventPassed(timestamp)` for a finite numeric timestamp:
`eventTimeInMs <= Date.now()`. -/
def hasEventPassed (timestamp now : Int) : Bool :=
  eventTimeInMs timestamp ≤ now

/-- `confirmedCount`: `participants.filter(p => p.status === 'confirmed').length`. -/
def confirmedCount (ps : List Participant) : Nat :=
  (ps.filter (fun p => p.status = PStatus.confirmed)).length

/-- `isEventFull`: `confirmedCount >= (maxPlayerLimit ?? 0)` on the
selected event. -/
def isEventFull (e : EventSchema) : Bool :=
  e.maxPlayerLimit ≤ (confirmedCount e.participants : Int)

/-- Result of `handleRequestToJoin`, one constructor per early return:
the guard alerts in source order, the repository-failure alert, and the
success path carrying the participant array passed to `updateEvent`. -/
inductive JoinResult where
  | notLoggedIn
  | noEventId
  | eventCompleted
  | eventFull
  | alreadyRequested
  | updateFailed
  | sent (ps : List Participant)
deriving DecidableEq

/-- The entry `handleRequestToJoin` appends: status `confirmed` when the
requester hosts the selected event (`isHost`), `pending` otherwise. -/
def joinEntry (uid userName : String) (selected : EventSchema) : Participant :=
  let isHost := decide (selected.hostedBy.id = uid)
  { id := uid, name := userName
    status := if isHost then .confirmed else .pending }

/-- `handleRequestToJoin`: guards on the selected-event snapshot (passed,
full), then re-reads the latest participant list
(`latestEvent?.participants ?? selectedParticipants`), aborts when the
user already has an entry, and otherwise appends `joinEntry`.  `latest`
is the `getEventById` result; `updateOk` is what `updateEvent`
resolved. -/
def handleRequestToJoin (now : Int) (userId : Option String) (userName : String)
    (selected : EventSchema) (latest : Option EventSchema) (updateOk : Bool) :
    JoinResult :=
  match userId with
  | none => .notLoggedIn
  | some uid =>
    if selected.id.isNone then .noEventId
    else if hasEventPassed selected.eventDateTime now then .eventCompleted
    else if isEventFull selected then .eventFull
    else
      let participants := (latest.map EventSchema.participants).getD selected.participants
      if participants.any (fun p => p.id = uid) then .alreadyRequested
      else if updateOk then .sent (participants ++ [joinEntry uid userName selected])
      else .updateFailed

/-- The participant array a join outcome writes through `updateEvent`
(`none` = no write reaches the store). -/
def joinWrite : JoinResult → Option (List Participant)
  | .sent ps => some ps
  | _ => none

/-- Result of `handleWithdrawFromEvent`, one constructor per early
return. -/
inductive WithdrawResult where
  | unavailable
  | closed
  | notJoined
  | updateFailed
  | withdrawn (ps : List Participant)
deriving DecidableEq

/-- `handleWithdrawFromEvent`: guards on a missing event id or empty
current-user id (both falsy), then the past-event gate, then filters the
snapshot's participants by the user's id; an unchanged length means the
user had no entry. -/
def handleWithdrawFromEvent (now : Int) (currentUserId : String)
    (selected : EventSchema) (updateOk : Bool) : WithdrawResult :=
  if selected.id.isNone ∨ currentUserId = "" then .unavailable
  else if hasEventPassed selected.eventDateTime now then .closed
  else
    let participants := selected.participants
    let updated := participants.filter (fun p => ¬ p.id = currentUserId)
    if updated.length = participants.length then .notJoined
    else if updateOk then .withdrawn updated else .updateFailed

/-- The participant array a withdraw outcome writes through
`updateEvent` (`none` = no write reaches the store). -/
def withdrawWrite : WithdrawResult → Option (List Participant)
  | .withdrawn ps => some ps
  | _ => none

/-- `handleUpdateParticipantStatus` (host accept / reject / expire): no
guard beyond the event id; re-reads the latest participant list and maps
the targeted id to the new status unconditionally.  Returns the
participant array handed to `updateEvent` (`none` = no write). -/
def handleUpdateParticipantStatus (participantId : String) (status : PStatus)
    (selected : EventSchema) (latest : Option EventSchema) :
    Option (List Participant) :=
  if selected.id.isNone then none
  else
    let participants := (latest.map EventSchema.participants).getD selected.participants
    some (participants.map fun p =>
      if p.id = participantId then { p with status := status } else p)

/-- The bulk-expiry map inside `handleEventSelect`: every `pending` entry
becomes `expired`, every other entry is returned unchanged. -/
def expireParticipants (ps : List Participant) : List Participant :=
  ps.map fun p => if p.status = PStatus.pending then { p with status := .expired } else p

/-- `hasChanges` inside `handleEventSelect`:
`updated.some((p, idx) => p.status !== latest[idx]?.status)`, with the
two lists of equal length (the updated list is a map of the latest). -/
def statusChanged (updated latest : List Participant) : Bool :=
  (updated.zip latest).any fun q => ¬ q.1.status = q.2.status

/-- `handleEventSelect`'s write decision: when the current user hosts
the tapped event, the event has passed and the snapshot still has a
`pending` entry, the latest participant list
(`latestEvent?.participants ?? participants`) is bulk-expired and, if
that changed any status, written through `updateEvent`.  Returns the
array written (`none` = no write). -/
def handleEventSelect (now : Int) (userId : Option String)
    (event : EventSchema) (latest : Option EventSchema) :
    Option (List Participant) :=
  let isEventHost := decide (event.hostedBy.id = userId.getD "")
  if isEventHost ∧ hasEventPassed event.eventDateTime now ∧ event.id.isSome then
    let participants := event.participants
    if participants.any (fun p => p.status = PStatus.pending) then
      let latestParticipants := (latest.map EventSchema.participants).getD participants
      let updated := expireParticipants latestParticipants
      if statusChanged updated latestParticipants then some updated else none
    else none
  else none

/-! ## The serial write queue (`SqliteWriteQueue`)

JavaScript is single-threaded: between two `await` suspension points a
task body runs atomically.  The queue's observable transitions are
therefore (a) a synchronous `enqueue` (push + the inlined `processQueue`
call) and (b) the completion of the currently running task body (its
`try`/`catch`/`finally`, ending in `isProcessing = false` and a nested
`processQueue` call).  Tasks are named by numbers; three ghost fields
record the enqueue order, the start order and the set of task bodies
currently in progress. -/

/-- State of `SqliteWriteQueue` plus ghost history. -/
structure QueueState where
  queue : List Nat
  isProcessing : Bool
  running : List Nat
  started : List Nat
  enqueued : List Nat
deriving DecidableEq

/-- The fresh queue: `queue = []`, `isProcessing = false`. -/
def queueInit : QueueState :=
  { queue := [], isProcessing := false, running := [], started := [], enqueued := [] }

/-- `processQueue`: early return when already processing or empty;
otherwise set `isProcessing`, `shift()` the head and begin its body. -/
def tryStartNext (s : QueueState) : QueueState :=
  if s.isProcessing then s
  else
    match s.queue with
    | [] => s
    | t :: rest =>
      { s with queue := rest, isProcessing := true,
               running := s.running ++ [t], started := s.started ++ [t] }

/-- `enqueue(task)`: push onto the queue, then call `processQueue`. -/
def enqueueStep (s : QueueState) (t : Nat) : QueueState :=
  tryStartNext { s with queue := s.queue ++ [t], enqueued := s.enqueued ++ [t] }

/-- Completion of the running task body `t` — by normal return or by a
failure caught by the `catch` branch (`ok` records which; both reach the
same `finally`): clear `isProcessing` and call `processQueue`. -/
def completeStep (s : QueueState) (t : Nat) (_ok : Bool) : QueueState :=
  tryStartNext { s with running := s.running.erase t, isProcessing := false }

/-- Queue states reachable from the fresh queue: any interleaving of
enqueues and completions of a task body that is actually in progress. -/
inductive QueueReachable : QueueState → Prop where
  | init : QueueReachable queueInit
  | enqueue (s : QueueState) (t : Nat) :
      QueueReachable s → QueueReachable (enqueueStep s t)
  | complete (s : QueueState) (t : Nat) (ok : Bool) :
      QueueReachable s → t ∈ s.running → QueueReachable (completeStep s t ok)

/-- The queue's inductive invariant: an idle queue holds nothing (the
inlined `processQueue` drains eagerly), a busy queue runs exactly one
task body, and the start order followed by the pending queue is exactly
the enqueue order. -/
def QueueInv (s : QueueState) : Prop :=
  (s.isProcessing = false → s.queue = [] ∧ s.running = []) ∧
  (s.isProcessing = true → s.running.length = 1) ∧
  s.started ++ s.queue = s.enqueued

/-! ## The nested-enqueue scenario of `addParticipant` / `removeParticipant`

`addParticipant(eventId, p)` resolves a promise from a task it enqueues;
that task `await`s `this.updateEvent(...)`, and `updateEvent` enqueues a
second task on the same `writeQueue` and resolves only from that task's
body.  The configurations below are the hand-executed JavaScript states
of this scenario started on an idle queue (the read inside the task,
`getEventById`, bypasses the queue and completes normally). -/

/-- Program counter of the outer (`addParticipant`) task body. -/
inductive OuterPhase where
  | running
  | awaitingUpdate
  | finished
deriving DecidableEq

/-- Runtime configuration of the nested-enqueue scenario.  `queuedUpd`
tells whether the inner `updateEvent` task sits in the queue;
`updStarted` / `updResolved` track the inner task body and its promise;
`outerResolved` is the promise returned by `addParticipant`. -/
structure NestedConfig where
  isProcessing : Bool
  queuedUpd : Bool
  outer : OuterPhase
  updStarted : Bool
  updResolved : Bool
  outerResolved : Bool
deriving DecidableEq

/-- Configuration right after the synchronous part of
`addParticipant` on an idle queue and the completion of its internal
read: `enqueue` pushed the outer task, `processQueue` popped it, set
`isProcessing` and began its body. -/
def nestedInit : NestedConfig :=
  { isProcessing := true, queuedUpd := false, outer := .running,
    updStarted := false, updResolved := false, outerResolved := false }

/-- The JavaScript runtime's only enabled transition, if any: the outer
body reaches its `await updateEvent(...)` (whose executor enqueues the
inner task; `processQueue` returns early because `isProcessing` is set);
the inner task starts only when the queue is idle and hands it out; its
completion resolves the inner promise; a resolved inner promise resumes
the outer body, which resolves the outer promise and completes.  When no
continuation is runnable the configuration is stuck (`none`). -/
def nestedStep (c : NestedConfig) : Option NestedConfig :=
  if c.outer = OuterPhase.running then
    some { c with queuedUpd := true, outer := .awaitingUpdate }
  else if ¬ c.isProcessing ∧ c.queuedUpd ∧ ¬ c.updStarted then
    some { c with queuedUpd := false, isProcessing := true, updStarted := true }
  else if c.updStarted ∧ ¬ c.updResolved then
    some { c with updResolved := true, isProcessing := c.queuedUpd }
  else if c.outer = OuterPhase.awaitingUpdate ∧ c.updResolved then
    some { c with outer := .finished, outerResolved := true,
                  isProcessing := c.queuedUpd }
  else none

/-- Deterministic run of the scenario: `nestedRun n` is the
configuration after `n` runtime steps (a stuck configuration repeats). -/
def nestedRun : Nat → NestedConfig
  | 0 => nestedInit
  | n + 1 => (nestedStep (nestedRun n)).getD (nestedRun n)

/-- The stuck configuration of the nested-enqueue scenario: the outer
task body awaits the `updateEvent` promise while the inner task sits in
the queue behind the `isProcessing` flag. -/
def nestedStuck : NestedConfig :=
  { isProcessing := true, queuedUpd := true, outer := .awaitingUpdate,
    updStarted := false, updResolved := false, outerResolved := false }

/-- One sequential run of `handleRequestToJoin` against the store: the
latest read returns the stored event itself and `updateEvent` succeeds;
a `sent` outcome replaces the stored participant array, every other
outcome leaves the store unchanged. -/
def joinOnce (now : Int) (uid userName : String) (e : EventSchema) : EventSchema :=
  match joinWrite (handleRequestToJoin now (some uid) userName e (some e) true) with
  | some ps => { e with participants := ps }
  | none => e

/-! ## Sample values used by witnesses and counterexamples -/

/-- A sample host identity. -/
def sampleHost : HostRef := { id := "h1", name := "Hana" }

/-- An event at confirmed-capacity that still has a `pending` entry:
`maxPlayerLimit = 1` with one `confirmed` and one `pending` participant. -/
def capEvent : EventSchema :=
  { id := some "e1", eventTitle := "Padel", eventDescription := "d",
    eventLocation := "court", maxPlayerLimit := 1, eventDateTime := 30,
    createdDate := some 1, hostedBy := sampleHost,
    participants :=
      [{ id := "a", name := "Ann", status := .confirmed },
       { id := "b", name := "Bob", status := .pending }] }

/-- `capEvent`'s participant array after the host accepts `"b"`. -/
def capEventAccepted : List Participant :=
  [{ id := "a", name := "Ann", status := .confirmed },
   { id := "b", name := "Bob", status := .confirmed }]

/-- A `createEvent` input whose title contains a percent escape. -/
def rawInput : EventSchema :=
  { id := some "e1", eventTitle := "a%20b", eventDescription := "d",
    eventLocation := "court", maxPlayerLimit := 4, eventDateTime := 30,
    createdDate := some 2, hostedBy := sampleHost, participants := [] }

/-- A future event (relative to `now = 0`) already holding two
`confirmed` participants out of `maxPlayerLimit = 2`. -/
def fullEvent : EventSchema :=
  { id := some "e2", eventTitle := "Padel", eventDescription := "d",
    eventLocation := "court", maxPlayerLimit := 2, eventDateTime := 30,
    createdDate := some 1, hostedBy := sampleHost,
    participants :=
      [{ id := "a", name := "Ann", status := .confirmed },
       { id := "b", name := "Bob", status := .confirmed }] }

/-- An event whose time (`1` second, i.e. `1000` ms) lies strictly
before `now = 5000` ms, with no participants. -/
def passedEvent : EventSchema :=
  { id := some "e3", eventTitle := "Padel", eventDescription := "d",
    eventLocation := "court", maxPlayerLimit := 4, eventDateTime := 1,
    createdDate := some 1, hostedBy := sampleHost, participants := [] }

/-- A past event hosted by `sampleHost` that still has a `pending`
participant. -/
def pendingPastEvent : EventSchema :=
  { id := some "e4", eventTitle := "Padel", eventDescription := "d",
    eventLocation := "court", maxPlayerLimit := 4, eventDateTime := 1,
    createdDate := some 1, hostedBy := sampleHost,
    participants :=
      [{ id := "a", name := "Ann", status := .confirmed },
       { id := "b", name := "Bob", status := .pending }] }

/-- The stored row for `pendingPastEvent`. -/
def pendingPastRow : EventRow :=
  { id := "e4", eventTitle := "Padel", eventDescription := "d",
    eventLocation := "court", maxPlayerLimit := 4, eventDateTime := 1,
    createdDate := 1, hostedBy := some sampleHost,
    participantsCol := .ser pendingPastEvent.participants }

/-- A stored row whose `participants` column text does not parse as
JSON. -/
def badRow : EventRow :=
  { id := "e5", eventTitle := "Padel", eventDescription := "d",
    eventLocation := "court", maxPlayerLimit := 4, eventDateTime := 30,
    createdDate := 1, hostedBy := some sampleHost,
    participantsCol := .malformed "not json" }

end SportNex

namespace SportNex

/-! ## Theorems -/

/-- C5.  For every storage-engine failure, the reads `getAllEvents`,
`getEventById` and `loginUser` propagate a thrown error to the caller,
while the writes `createEvent`, `updateEvent`, `deleteEvent` and
`clearEventsTable` catch it and resolve to a falsy or empty result —
a write never propagates an exception. -/
theorem storage_failure_read_write_asymmetry (msg : String) (hasFields : Bool)
    (stored : EventRead) :
    getAllEventsOn (.failure msg) = Except.error "Failed to get events" ∧
    getEventByIdOn (.failure msg) = Except.error "Failed to get event" ∧
    loginUserOn (.failure msg) = Except.error "Failed to login" ∧
    createEventOn stored (.failure msg) = Except.ok none ∧
    updateEventOn hasFields (.failure msg) = Except.ok false ∧
    deleteEventOn (.failure msg) = Except.ok false ∧
    clearEventsTableOn (.failure msg) = Except.ok () := by
  refine ⟨rfl, rfl, rfl, rfl, ?_, rfl, rfl⟩
  cases hasFields <;> rfl

/-- C10.  A stored row whose `participants` column text does not parse
as JSON is read back without throwing, with `participants` degraded to
the empty list, by both `getAllEvents` and `getEventById`. -/
theorem malformed_participants_read_empty (rows : List EventRow) (r : EventRow)
    (s : String) (h : r.participantsCol = PartCol.malformed s) :
    (rowToEvent r).participants = [] ∧
    getAllEventsOn (.ok rows) = Except.ok (rows.map rowToEvent) ∧
    getEventByIdOn (.ok [r]) = Except.ok (some (rowToEvent r)) := by
  refine ⟨?_, rfl, rfl⟩
  simp [rowToEvent, h, deserializeParticipantsCol, orEmptyList]

/-- Witness for C10 at the concrete malformed row `badRow`. -/
theorem malformed_participants_read_empty_witness :
    (rowToEvent badRow).participants = [] ∧
    getAllEventsOn (.ok [badRow]) = Except.ok ([badRow].map rowToEvent) ∧
    getEventByIdOn (.ok [badRow]) = Except.ok (some (rowToEvent badRow)) :=
  malformed_participants_read_empty [badRow] badRow "not json" rfl

/-- C6.  A join request on an event whose confirmed count has reached
`maxPlayerLimit` is rejected with the "event full" signal and performs
no write, for any requester who is not already a participant. -/
theorem join_rejected_when_full (now : Int) (uid userName : String)
    (e : EventSchema) (latest : Option EventSchema) (updateOk : Bool)
    (hid : e.id.isNone = false)
    (hpassed : hasEventPassed e.eventDateTime now = false)
    (hfull : e.maxPlayerLimit ≤ (confirmedCount e.participants : Int))
    (_hnp : ∀ p ∈ e.participants, ¬ p.id = uid) :
    handleRequestToJoin now (some uid) userName e latest updateOk = JoinResult.eventFull ∧
    joinWrite (handleRequestToJoin now (some uid) userName e latest updateOk) = none := by
  have hfb : isEventFull e = true := by
    unfold isEventFull
    exact decide_eq_true hfull
  have h1 : handleRequestToJoin now (some uid) userName e latest updateOk =
      JoinResult.eventFull := by
    unfold handleRequestToJoin
    simp [hid, hpassed, hfb]
  exact ⟨h1, by rw [h1]; rfl⟩

/-- Witness for C6: `fullEvent` (two confirmed of limit 2) rejects the
outsider `"u9"` at `now = 0`. -/
theorem join_rejected_when_full_witness :
    handleRequestToJoin 0 (some "u9") "Uma" fullEvent (some fullEvent) true =
      JoinResult.eventFull ∧
    joinWrite (handleRequestToJoin 0 (some "u9") "Uma" fullEvent (some fullEvent) true) =
      none :=
  join_rejected_when_full 0 "u9" "Uma" fullEvent (some fullEvent) true
    (by decide) (by decide) (by decide) (by decide)

/-- C8.  On an event whose normalized time lies strictly before the
current time, the join request is rejected with the "completed" signal
and the withdrawal with the "closed" signal, and neither performs a
write. -/
theorem passed_event_gates_join_withdraw (now : Int) (uid userName : String)
    (e : EventSchema) (latest : Option EventSchema) (ok1 ok2 : Bool)
    (hid : e.id.isNone = false) (huid : ¬ uid = "")
    (hbefore : eventTimeInMs e.eventDateTime < now) :
    handleRequestToJoin now (some uid) userName e latest ok1 =
      JoinResult.eventCompleted ∧
    joinWrite (handleRequestToJoin now (some uid) userName e latest ok1) = none ∧
    handleWithdrawFromEvent now uid e ok2 = WithdrawResult.closed ∧
    withdrawWrite (handleWithdrawFromEvent now uid e ok2) = none := by
  have hp : hasEventPassed e.eventDateTime now = true := by
    unfold hasEventPassed
    exact decide_eq_true (le_of_lt hbefore)
  have h1 : handleRequestToJoin now (some uid) userName e latest ok1 =
      JoinResult.eventCompleted := by
    unfold handleRequestToJoin
    simp [hid, hp]
  have h2 : handleWithdrawFromEvent now uid e ok2 = WithdrawResult.closed := by
    unfold handleWithdrawFromEvent
    simp [hid, huid, hp]
  exact ⟨h1, by rw [h1]; rfl, h2, by rw [h2]; rfl⟩

/-- Witness for C8: `passedEvent` (event second `1`, i.e. `1000` ms) at
`now = 5000` ms rejects both operations for user `"a"`. -/
theorem passed_event_gates_join_withdraw_witness :
    handleRequestToJoin 5000 (some "a") "Ann" passedEvent (some passedEvent) true =
      JoinResult.eventCompleted ∧
    joinWrite (handleRequestToJoin 5000 (some "a") "Ann" passedEvent
      (some passedEvent) true) = none ∧
    handleWithdrawFromEvent 5000 "a" passedEvent true = WithdrawResult.closed ∧
    withdrawWrite (handleWithdrawFromEvent 5000 "a" passedEvent true) = none :=
  passed_event_gates_join_withdraw 5000 "a" "Ann" passedEvent (some passedEvent)
    true true (by decide) (by decide) (by decide)

/-- `find?` skips a prefix in which nothing matches. -/
theorem find?_append_of_none {α : Type} (p : α → Bool) (l1 l2 : List α)
    (h : l1.find? p = none) : (l1 ++ l2).find? p = l2.find? p := by
  induction l1 with
  | nil => rfl
  | cons a l ih =>
    by_cases hp : p a = true
    · rw [List.find?_cons_of_pos _ hp] at h
      exact absurd h (by simp)
    · rw [List.find?_cons_of_neg _ hp] at h
      rw [List.cons_append, List.find?_cons_of_neg _ hp]
      exact ih h

/-- A fresh row appended to the table is the one `find?` returns for its
primary key. -/
theorem findRow_append_fresh (db : EventsDB) (row : EventRow)
    (h : findRow db row.id = none) : findRow (db ++ [row]) row.id = some row := by
  unfold findRow at h ⊢
  rw [find?_append_of_none _ _ _ h]
  exact List.find?_cons_of_pos _ (by simp)

/-- C4 counterexample.  `createEvent` URI-decodes every string value
(`decodeData`), so the object read back is not equal to the input
outside `id`/`createdDate`: the input title `"a%20b"` is stored and
returned as `"a b"`. -/
theorem create_get_uri_decodes_counterexample :
    (getEventById (createEvent [] rawInput "gen" 5).1 "e1").map EventRead.eventTitle =
      some "a b" ∧
    rawInput.eventTitle = "a%20b" ∧
    ¬ (some "a b" = some ("a%20b" : String)) := by decide

/-- C4 (amended).  `createEvent` followed by `getEventById` on the
returned id yields the input with every string value URI-decoded
(`decodeData`) and with `id`/`createdDate` defaulted when absent; the
numeric fields are returned unchanged. -/
theorem create_get_returns_decoded_input (db : EventsDB) (input : EventSchema)
    (genId : String) (now : Int)
    (hfresh : findRow db ((decodeEvent input).id.getD genId) = none) :
    (createEvent db input genId now).2 =
      some { id := (decodeEvent input).id.getD genId
             eventTitle := decodeStr input.eventTitle
             eventDescription := decodeStr input.eventDescription
             eventLocation := decodeStr input.eventLocation
             maxPlayerLimit := input.maxPlayerLimit
             eventDateTime := input.eventDateTime
             createdDate := input.createdDate.getD now
             hostedBy := some (decodeHostRef input.hostedBy)
             participants := input.participants.map decodeParticipant } ∧
    getEventById (createEvent db input genId now).1
        ((decodeEvent input).id.getD genId) =
      some { id := (decodeEvent input).id.getD genId
             eventTitle := decodeStr input.eventTitle
             eventDescription := decodeStr input.eventDescription
             eventLocation := decodeStr input.eventLocation
             maxPlayerLimit := input.maxPlayerLimit
             eventDateTime := input.eventDateTime
             createdDate := input.createdDate.getD now
             hostedBy := some (decodeHostRef input.hostedBy)
             participants := input.participants.map decodeParticipant } := by
  have hfresh' : findRow db (createdRow input genId now).id = none := hfresh
  have hnotsome : (findRow db (createdRow input genId now).id).isSome = false := by
    rw [hfresh']; rfl
  constructor
  · simp only [createEvent, hnotsome, Bool.false_eq_true, if_false]
    rfl
  · have hfst : (createEvent db input genId now).1 =
        db ++ [createdRow input genId now] := by
      simp only [createEvent, hnotsome, Bool.false_eq_true, if_false]
    have hget : findRow (db ++ [createdRow input genId now])
        ((decodeEvent input).id.getD genId) = some (createdRow input genId now) :=
      findRow_append_fresh db (createdRow input genId now) hfresh'
    unfold getEventById
    rw [hfst, hget]
    rfl

/-- Witness for C4 (amended) at the concrete input `rawInput` on the
empty table. -/
theorem create_get_returns_decoded_input_witness :
    (createEvent [] rawInput "gen" 5).2 =
      some { id := (decodeEvent rawInput).id.getD "gen"
             eventTitle := decodeStr rawInput.eventTitle
             eventDescription := decodeStr rawInput.eventDescription
             eventLocation := decodeStr rawInput.eventLocation
             maxPlayerLimit := rawInput.maxPlayerLimit
             eventDateTime := rawInput.eventDateTime
             createdDate := rawInput.createdDate.getD 5
             hostedBy := some (decodeHostRef rawInput.hostedBy)
             participants := rawInput.participants.map decodeParticipant } ∧
    getEventById (createEvent [] rawInput "gen" 5).1
        ((decodeEvent rawInput).id.getD "gen") =
      some { id := (decodeEvent rawInput).id.getD "gen"
             eventTitle := decodeStr rawInput.eventTitle
             eventDescription := decodeStr rawInput.eventDescription
             eventLocation := decodeStr rawInput.eventLocation
             maxPlayerLimit := rawInput.maxPlayerLimit
             eventDateTime := rawInput.eventDateTime
             createdDate := rawInput.createdDate.getD 5
             hostedBy := some (decodeHostRef rawInput.hostedBy)
             participants := rawInput.participants.map decodeParticipant } :=
  create_get_returns_decoded_input [] rawInput "gen" 5 rfl

/-- `confirmedCount` over a cons. -/
theorem confirmedCount_cons (a : Participant) (l : List Participant) :
    confirmedCount (a :: l) =
      (if a.status = PStatus.confirmed then 1 else 0) + confirmedCount l := by
  by_cases h : a.status = PStatus.confirmed <;>
    simp [confirmedCount, List.filter_cons, h] <;> omega

/-- The status-update map is the identity when no entry carries the
targeted id. -/
theorem statusMap_eq_self (ps : List Participant) (pid : String) (status : PStatus)
    (h : ∀ p ∈ ps, ¬ p.id = pid) :
    (ps.map fun p => if p.id = pid then { p with status := status } else p) = ps := by
  induction ps with
  | nil => rfl
  | cons a l ih =>
    simp only [List.map_cons]
    rw [if_neg (h a (by simp)), ih fun p hp => h p (by simp [hp])]

/-- Setting one id's status to `confirmed` raises the confirmed count by
at most one, provided at most one entry carries that id. -/
theorem confirmedCount_statusMap_le (ps : List Participant) (pid : String)
    (h : (ps.filter fun p => p.id = pid).length ≤ 1) :
    confirmedCount (ps.map fun p =>
        if p.id = pid then { p with status := PStatus.confirmed } else p)
      ≤ confirmedCount ps + 1 := by
  induction ps with
  | nil => simp [confirmedCount]
  | cons a l ih =>
    by_cases ha : a.id = pid
    · have hcons : ((a :: l).filter fun p => p.id = pid) =
          a :: (l.filter fun p => p.id = pid) := by
        simp [List.filter_cons, ha]
      rw [hcons, List.length_cons] at h
      have hl0 : (l.filter fun p => p.id = pid).length = 0 := by omega
      have hnone : ∀ p ∈ l, ¬ p.id = pid := by
        intro p hp hpe
        have hmem : p ∈ l.filter fun p => p.id = pid :=
          List.mem_filter.mpr ⟨hp, by simp [hpe]⟩
        rw [List.length_eq_zero] at hl0
        rw [hl0] at hmem
        exact absurd hmem (List.not_mem_nil p)
      rw [List.map_cons, if_pos ha, statusMap_eq_self l pid _ hnone,
        confirmedCount_cons, confirmedCount_cons]
      by_cases hs : a.status = PStatus.confirmed <;> simp [hs] <;> omega
    · have hcons : ((a :: l).filter fun p => p.id = pid) =
          l.filter fun p => p.id = pid := by
        simp [List.filter_cons, ha]
      rw [hcons] at h
      have hl : (l.filter fun p => p.id = pid).length ≤ 1 := h
      rw [List.map_cons, if_neg ha, confirmedCount_cons, confirmedCount_cons]
      have hih := ih hl
      by_cases hs : a.status = PStatus.confirmed <;> simp [hs] <;> omega

/-- C3 counterexample.  `capEvent` satisfies the capacity invariant
(`1 confirmed ≤ maxPlayerLimit = 1`), yet the host accepting the pending
participant `"b"` writes a participant array with `2 > 1` confirmed:
the accept path performs no capacity check. -/
theorem accept_at_capacity_exceeds_limit :
    ((confirmedCount capEvent.participants : Int) ≤ capEvent.maxPlayerLimit) ∧
    handleUpdateParticipantStatus "b" PStatus.confirmed capEvent (some capEvent) =
      some capEventAccepted ∧
    ¬ ((confirmedCount capEventAccepted : Int) ≤ capEvent.maxPlayerLimit) := by
  decide

/-- C3 (amended).  The capacity invariant is enforced only by the
join-request gate; the accept path checks nothing, so a single host
accept preserves `confirmedCount ≤ maxPlayerLimit` exactly when there
was strict room before it (given at most one entry per id, the stored
invariant). -/
theorem accept_below_capacity_preserves_limit (pid : String) (e : EventSchema)
    (hid : e.id.isNone = false)
    (hone : (e.participants.filter fun p => p.id = pid).length ≤ 1)
    (hroom : (confirmedCount e.participants : Int) < e.maxPlayerLimit) :
    handleUpdateParticipantStatus pid PStatus.confirmed e (some e) =
      some (e.participants.map fun p =>
        if p.id = pid then { p with status := PStatus.confirmed } else p) ∧
    (confirmedCount (e.participants.map fun p =>
        if p.id = pid then { p with status := PStatus.confirmed } else p) : Int)
      ≤ e.maxPlayerLimit := by
  constructor
  · unfold handleUpdateParticipantStatus
    simp [hid]
  · have h1 := confirmedCount_statusMap_le e.participants pid hone
    have h2 : (confirmedCount (e.participants.map fun p =>
        if p.id = pid then { p with status := PStatus.confirmed } else p) : Int)
        ≤ (confirmedCount e.participants : Int) + 1 := by exact_mod_cast h1
    omega

/-- Witness for C3 (amended): accepting `"b"` on `pendingPastEvent`
(1 confirmed of limit 4) stays within the limit. -/
theorem accept_below_capacity_preserves_limit_witness :
    handleUpdateParticipantStatus "b" PStatus.confirmed pendingPastEvent
        (some pendingPastEvent) =
      some (pendingPastEvent.participants.map fun p =>
        if p.id = "b" then { p with status := PStatus.confirmed } else p) ∧
    (confirmedCount (pendingPastEvent.participants.map fun p =>
        if p.id = "b" then { p with status := PStatus.confirmed } else p) : Int)
      ≤ pendingPastEvent.maxPlayerLimit :=
  accept_below_capacity_preserves_limit "b" pendingPastEvent
    (by decide) (by decide) (by decide)

/-- C7 counterexample.  On a passed event, both join requests are
rejected, so a fresh identity ends with zero participant entries, not
"exactly one": the claim's universal quantification over every event
fails. -/
theorem join_twice_no_entry_counterexample :
    ¬ (((joinOnce 5000 "u1" "Uma" (joinOnce 5000 "u1" "Uma"
        passedEvent)).participants.filter fun p => p.id = "u1").length = 1) := by
  decide

/-- C7 (amended).  On an event the identity can join (id present, not
passed, not full, not yet a participant), requesting to join twice
yields exactly one entry for that identity: the second request performs
no write, so the state after two requests equals the state after one. -/
theorem join_twice_upserts_single_entry (now : Int) (uid userName : String)
    (e : EventSchema)
    (hid : e.id.isNone = false)
    (hpassed : hasEventPassed e.eventDateTime now = false)
    (hfull : isEventFull e = false)
    (hfresh : ∀ p ∈ e.participants, ¬ p.id = uid) :
    joinOnce now uid userName (joinOnce now uid userName e) =
      joinOnce now uid userName e ∧
    ((joinOnce now uid userName e).participants.filter
        fun p => p.id = uid).length = 1 := by
  have hany : (e.participants.any fun p => p.id = uid) = false := by
    rw [List.any_eq_false]
    intro p hp
    simpa using hfresh p hp
  have hjoin1 : handleRequestToJoin now (some uid) userName e (some e) true =
      JoinResult.sent (e.participants ++ [joinEntry uid userName e]) := by
    unfold handleRequestToJoin
    simp [hid, hpassed, hfull, hany]
  have he1 : joinOnce now uid userName e =
      { e with participants := e.participants ++ [joinEntry uid userName e] } := by
    unfold joinOnce
    rw [hjoin1]
    rfl
  have hcount : ((e.participants ++ [joinEntry uid userName e]).filter
      fun p => p.id = uid).length = 1 := by
    rw [List.filter_append]
    have h1 : (e.participants.filter fun p => p.id = uid) = [] :=
      List.filter_eq_nil_iff.mpr fun p hp => by simpa using hfresh p hp
    have h2 : ([joinEntry uid userName e].filter fun p => p.id = uid) =
        [joinEntry uid userName e] := by
      simp [joinEntry]
    rw [h1, h2]
    rfl
  refine ⟨?_, by rw [he1]; exact hcount⟩
  rw [he1]
  have hany1 : (((e.participants ++ [joinEntry uid userName e])).any
      fun p => p.id = uid) = true := by
    simp [joinEntry]
  by_cases hf1 : isEventFull
      { e with participants := e.participants ++ [joinEntry uid userName e] } = true
  · have h2 : handleRequestToJoin now (some uid) userName
        { e with participants := e.participants ++ [joinEntry uid userName e] }
        (some { e with participants := e.participants ++ [joinEntry uid userName e] })
        true = JoinResult.eventFull := by
      unfold handleRequestToJoin
      simp [hid, hpassed, hf1]
    unfold joinOnce
    rw [h2]
    rfl
  · have hf1' : isEventFull
        { e with participants := e.participants ++ [joinEntry uid userName e] } =
        false := by simpa using hf1
    have h2 : handleRequestToJoin now (some uid) userName
        { e with participants := e.participants ++ [joinEntry uid userName e] }
        (some { e with participants := e.participants ++ [joinEntry uid userName e] })
        true = JoinResult.alreadyRequested := by
      unfold handleRequestToJoin
      simp [hid, hpassed, hf1', hany1]
    unfold joinOnce
    rw [h2]
    rfl

/-- Witness for C7 (amended): the fresh identity `"u9"` joins
`passedEvent` at `now = 0`, a time at which that event (second `1`,
i.e. `1000` ms) has not yet passed and has room. -/
theorem join_twice_upserts_single_entry_witness :
    joinOnce 0 "u9" "Uma" (joinOnce 0 "u9" "Uma" passedEvent) =
      joinOnce 0 "u9" "Uma" passedEvent ∧
    ((joinOnce 0 "u9" "Uma" passedEvent).participants.filter
        fun p => p.id = "u9").length = 1 :=
  join_twice_upserts_single_entry 0 "u9" "Uma" passedEvent
    (by decide) (by decide) (by decide) (by decide)

/-- Bulk expiry changes some status whenever a `pending` entry exists,
so `hasChanges` holds. -/
theorem statusChanged_expire_of_pending (ps : List Participant)
    (h : (ps.any fun p => p.status = PStatus.pending) = true) :
    statusChanged (expireParticipants ps) ps = true := by
  induction ps with
  | nil => exact absurd h (by simp)
  | cons a l ih =>
    by_cases ha : a.status = PStatus.pending
    · simp [statusChanged, expireParticipants, ha]
    · have hl : (l.any fun p => p.status = PStatus.pending) = true := by
        simpa [List.any_cons, ha] using h
      have htail := ih hl
      simp only [statusChanged, expireParticipants, List.map_cons, if_neg ha,
        List.zip_cons_cons, List.any_cons] at htail ⊢
      rw [htail, Bool.or_true]

/-- Pointwise description of bulk expiry: a `pending` entry becomes
`expired`, any other entry is returned unchanged. -/
theorem expire_pointwise (ps : List Participant) :
    List.Forall₂ (fun q p =>
        (p.status = PStatus.pending → q = { p with status := PStatus.expired }) ∧
        (¬ p.status = PStatus.pending → q = p))
      (expireParticipants ps) ps := by
  induction ps with
  | nil => exact List.Forall₂.nil
  | cons a l ih =>
    have hhead : expireParticipants (a :: l) =
        (if a.status = PStatus.pending then { a with status := PStatus.expired }
         else a) :: expireParticipants l := by
      simp [expireParticipants]
    rw [hhead]
    refine List.Forall₂.cons ⟨fun h => ?_, fun h => ?_⟩ ih
    · rw [if_pos h]
    · rw [if_neg h]

/-- The participants-column update rewrites exactly the looked-up row. -/
theorem findRow_dbUpdateParticipants (db : EventsDB) (eid : String)
    (ps : List Participant) :
    findRow (dbUpdateParticipants db eid ps) eid =
      (findRow db eid).map fun r => { r with participantsCol := PartCol.ser ps } := by
  induction db with
  | nil => rfl
  | cons r l ih =>
    simp only [dbUpdateParticipants, List.map_cons] at ih ⊢
    by_cases hr : r.id = eid
    · rw [if_pos hr]
      unfold findRow
      rw [List.find?_cons_of_pos _ (by simp [hr]),
        List.find?_cons_of_pos _ (by simp [hr])]
      rfl
    · rw [if_neg hr]
      unfold findRow
      rw [List.find?_cons_of_neg _ (by simp [hr]),
        List.find?_cons_of_neg _ (by simp [hr])]
      exact ih

/-- C9.  When the host opens a past event that still has a `pending`
participant, every `pending` entry transitions to `expired` in one
batched participant-array update, entries in other statuses are
unchanged, and the update is persisted: `getEventById` afterward returns
the expired array. -/
theorem host_select_expires_pending (now : Int) (uid eid : String)
    (e : EventSchema) (db : EventsDB) (r : EventRow)
    (hhost : e.hostedBy.id = uid)
    (hpassed : hasEventPassed e.eventDateTime now = true)
    (hid : e.id = some eid)
    (hpending : (e.participants.any fun p => p.status = PStatus.pending) = true)
    (hrow : findRow db eid = some r) :
    handleEventSelect now (some uid) e (some e) =
      some (expireParticipants e.participants) ∧
    List.Forall₂ (fun q p =>
        (p.status = PStatus.pending → q = { p with status := PStatus.expired }) ∧
        (¬ p.status = PStatus.pending → q = p))
      (expireParticipants e.participants) e.participants ∧
    (getEventById (dbUpdateParticipants db eid
        (expireParticipants e.participants)) eid).map EventRead.participants =
      some (expireParticipants e.participants) := by
  refine ⟨?_, expire_pointwise e.participants, ?_⟩
  · have hchanged := statusChanged_expire_of_pending e.participants hpending
    unfold handleEventSelect
    simp [hhost, hpassed, hid, hpending, hchanged]
  · unfold getEventById
    rw [findRow_dbUpdateParticipants, hrow]
    rfl

/-- Witness for C9: host `"h1"` opens `pendingPastEvent` at
`now = 5000` over the one-row table `[pendingPastRow]`. -/
theorem host_select_expires_pending_witness :
    handleEventSelect 5000 (some "h1") pendingPastEvent (some pendingPastEvent) =
      some (expireParticipants pendingPastEvent.participants) ∧
    List.Forall₂ (fun q p =>
        (p.status = PStatus.pending → q = { p with status := PStatus.expired }) ∧
        (¬ p.status = PStatus.pending → q = p))
      (expireParticipants pendingPastEvent.participants)
      pendingPastEvent.participants ∧
    (getEventById (dbUpdateParticipants [pendingPastRow] "e4"
        (expireParticipants pendingPastEvent.participants)) "e4").map
        EventRead.participants =
      some (expireParticipants pendingPastEvent.participants) :=
  host_select_expires_pending 5000 "h1" "e4" pendingPastEvent [pendingPastRow]
    pendingPastRow (by decide) (by decide) (by decide) (by decide) (by decide)

/-- A queue state satisfying the invariant runs exactly the member task:
membership in `running` forces `running = [t]` and a set flag. -/
theorem running_singleton_of_mem (s : QueueState) (t : Nat)
    (hinv : QueueInv s) (hmem : t ∈ s.running) :
    s.running = [t] ∧ s.isProcessing = true := by
  obtain ⟨hidle, hbusy, _⟩ := hinv
  cases hp : s.isProcessing with
  | false =>
    rw [(hidle hp).2] at hmem
    exact absurd hmem (List.not_mem_nil t)
  | true =>
    have hlen := hbusy hp
    cases hr : s.running with
    | nil =>
      rw [hr] at hmem
      exact absurd hmem (List.not_mem_nil t)
    | cons a rest =>
      rw [hr] at hlen hmem
      have hrest : rest = [] := by
        simp only [List.length_cons] at hlen
        exact List.length_eq_zero.mp (by omega)
      subst hrest
      have : t = a := by simpa using hmem
      subst this
      exact ⟨rfl, rfl⟩

/-- Every reachable queue state satisfies `QueueInv`. -/
theorem queueInv_of_reachable (s : QueueState) (h : QueueReachable s) :
    QueueInv s := by
  induction h with
  | init =>
    exact ⟨fun _ => ⟨rfl, rfl⟩, fun hp => by simp [queueInit] at hp, rfl⟩
  | enqueue s t _ ih =>
    obtain ⟨hidle, hbusy, hfifo⟩ := ih
    unfold enqueueStep tryStartNext
    cases hp : s.isProcessing with
    | true =>
      simp only [hp, if_true]
      refine ⟨fun hfalse => by simp at hfalse, fun _ => hbusy hp, ?_⟩
      rw [← List.append_assoc, hfifo]
    | false =>
      obtain ⟨hq, hr⟩ := hidle hp
      simp only [hp, hq, hr, Bool.false_eq_true, if_false, List.nil_append]
      refine ⟨fun hfalse => by simp at hfalse, fun _ => rfl, ?_⟩
      show (s.started ++ [t]) ++ [] = s.enqueued ++ [t]
      rw [hq, List.append_nil] at hfifo
      rw [List.append_nil, hfifo]
  | complete s t ok _ hmem ih =>
    obtain ⟨hrun, hp⟩ := running_singleton_of_mem s t ih hmem
    obtain ⟨hidle, hbusy, hfifo⟩ := ih
    have herase : s.running.erase t = [] := by
      rw [hrun]
      simp
    unfold completeStep tryStartNext
    simp only [herase, Bool.false_eq_true, if_false]
    cases hq : s.queue with
    | nil =>
      refine ⟨fun _ => ⟨rfl, rfl⟩, fun hfalse => by simp at hfalse, ?_⟩
      rw [hq, List.append_nil] at hfifo
      simpa [hq] using hfifo
    | cons u rest =>
      refine ⟨fun hfalse => by simp at hfalse, fun _ => rfl, ?_⟩
      rw [hq] at hfifo
      rw [List.append_assoc, List.singleton_append]
      exact hfifo

/-- C1.  In every reachable queue state, at most one task body is in
progress, the start order followed by the pending queue is exactly the
FIFO enqueue order, and when the running task completes — by success or
by a caught failure — the queue immediately begins the next pending
task (the head of the queue, `queue.take 1`). -/
theorem writeQueue_serializes_fifo (s : QueueState) (t : Nat) (ok : Bool)
    (h : QueueReachable s) :
    s.running.length ≤ 1 ∧
    s.started ++ s.queue = s.enqueued ∧
    (t ∈ s.running → (completeStep s t ok).running = s.queue.take 1) := by
  have hinv := queueInv_of_reachable s h
  obtain ⟨hidle, hbusy, hfifo⟩ := hinv
  refine ⟨?_, hfifo, ?_⟩
  · cases hp : s.isProcessing with
    | false => rw [(hidle hp).2]; simp
    | true => rw [hbusy hp]
  · intro hmem
    obtain ⟨hrun, _⟩ := running_singleton_of_mem s t
      ⟨hidle, hbusy, hfifo⟩ hmem
    have herase : s.running.erase t = [] := by
      rw [hrun]
      simp
    unfold completeStep tryStartNext
    simp only [herase, Bool.false_eq_true, if_false]
    cases hq : s.queue with
    | nil => rfl
    | cons u rest => rfl

/-- Witness for C1 at the reachable state obtained by enqueuing task `0`
on the fresh queue. -/
theorem writeQueue_serializes_fifo_witness :
    (enqueueStep queueInit 0).running.length ≤ 1 ∧
    (enqueueStep queueInit 0).started ++ (enqueueStep queueInit 0).queue =
      (enqueueStep queueInit 0).enqueued ∧
    (0 ∈ (enqueueStep queueInit 0).running →
      (completeStep (enqueueStep queueInit 0) 0 true).running =
        (enqueueStep queueInit 0).queue.take 1) :=
  writeQueue_serializes_fifo (enqueueStep queueInit 0) 0 true
    (QueueReachable.enqueue queueInit 0 QueueReachable.init)

/-- The nested-enqueue scenario visits only its initial configuration
and the stuck configuration. -/
theorem nestedRun_cases (n : Nat) :
    nestedRun n = nestedInit ∨ nestedRun n = nestedStuck := by
  induction n with
  | zero => exact Or.inl rfl
  | succ n ih =>
    cases ih with
    | inl h =>
      right
      simp only [nestedRun, h]
      decide
    | inr h =>
      right
      simp only [nestedRun, h]
      decide

/-- C2.  `addParticipant` / `removeParticipant` called on an idle queue
never resolve: the enqueued task awaits `updateEvent`, whose own task
sits behind the `isProcessing` flag forever — after the first runtime
step the configuration is stuck with the inner task still queued, and
the returned promise is never resolved. -/
theorem addParticipant_nested_enqueue_deadlock (n : Nat) :
    (nestedRun n).outerResolved = false ∧
    nestedStep (nestedRun (n + 1)) = none ∧
    (nestedRun (n + 1)).queuedUpd = true := by
  have hstuck : nestedRun (n + 1) = nestedStuck := by
    cases nestedRun_cases n with
    | inl h =>
      simp only [nestedRun, h]
      decide
    | inr h =>
      simp only [nestedRun, h]
      decide
  refine ⟨?_, by rw [hstuck]; decide, by rw [hstuck]; decide⟩
  cases nestedRun_cases n with
  | inl h => rw [h]; decide
  | inr h => rw [h]; decide

end SportNex
